import Mathlib

/-!
Verification of the identifier-derivation and registry-construction core of
`src/v2/build.py` (GeoDrills-mvp).  The script reads a JSON schema, derives a
namespace as `uuid.uuid5(uuid.NAMESPACE_DNS, seed)` and, for every page /
section / lesson and level 1..3, an identifier
`uuid.uuid5(namespace, f"{title}|{heading}|{lesson_name}|{i}")`; it rewrites
each section's lesson list into normalized `{name, levels}` objects and
accumulates a registry dict `uid -> [title, heading, lesson_name, i]`.

This file embeds that core shallowly: the Python standard library's
`uuid.uuid5` (a SHA-1 based, RFC 4122 version-5 name UUID) is implemented
over byte lists with `Nat` arithmetic mod 2^32, JSON values are an inductive
type, Python `dict` insertion is an association-list update that keeps the
original position of an existing key (last-write-wins on values), and the
fallible dynamic field accesses of the script return `Except`.
-/

namespace GeoDrills

/-! ### Bytes, UTF-8, SHA-1 (the Python stdlib machinery `uuid.uuid5` uses) -/

/-- UTF-8 encoding of a Unicode code point, as a list of byte values
(`str.encode('utf-8')` acts code point by code point). -/
def utf8Cp (c : Nat) : List Nat :=
  if c < 0x80 then [c]
  else if c < 0x800 then
    [0xC0 ||| (c >>> 6), 0x80 ||| (c &&& 0x3F)]
  else if c < 0x10000 then
    [0xE0 ||| (c >>> 12), 0x80 ||| ((c >>> 6) &&& 0x3F), 0x80 ||| (c &&& 0x3F)]
  else
    [0xF0 ||| (c >>> 18), 0x80 ||| ((c >>> 12) &&& 0x3F),
     0x80 ||| ((c >>> 6) &&& 0x3F), 0x80 ||| (c &&& 0x3F)]

/-- Bytes of `s.encode('utf-8')`. -/
def strBytes (s : String) : List Nat :=
  s.data.foldr (fun c acc => utf8Cp c.toNat ++ acc) []

/-- Left rotation of a 32-bit word. -/
def rotl32 (n x : Nat) : Nat :=
  ((x <<< n) ||| (x >>> (32 - n))) % 4294967296

/-- Big-endian 4-byte encoding of a 32-bit word. -/
def be32 (x : Nat) : List Nat :=
  [(x >>> 24) % 256, (x >>> 16) % 256, (x >>> 8) % 256, x % 256]

/-- Big-endian 8-byte encoding of a 64-bit value. -/
def be64 (x : Nat) : List Nat :=
  [(x >>> 56) % 256, (x >>> 48) % 256, (x >>> 40) % 256, (x >>> 32) % 256,
   (x >>> 24) % 256, (x >>> 16) % 256, (x >>> 8) % 256, x % 256]

/-- SHA-1 padding: append `0x80`, zero bytes to 56 mod 64, then the
big-endian 64-bit bit length of the message. -/
def sha1Pad (msg : List Nat) : List Nat :=
  msg ++ [0x80] ++ List.replicate ((119 - msg.length % 64) % 64) 0
      ++ be64 (msg.length * 8)

/-- Split a byte list into 64-byte chunks (`fuel` bounds the recursion and
is instantiated with the list length, which always suffices). -/
def chunks64Go : Nat → List Nat → List (List Nat)
  | 0, _ => []
  | _, [] => []
  | fuel + 1, b :: rest =>
    (b :: rest).take 64 :: chunks64Go fuel ((b :: rest).drop 64)

/-- Split a byte list into 64-byte chunks. -/
def chunks64 (l : List Nat) : List (List Nat) :=
  chunks64Go l.length l

/-- Big-endian 32-bit words from a byte list (4 bytes per word). -/
def words32 : List Nat → List Nat
  | b0 :: b1 :: b2 :: b3 :: rest =>
    ((b0 <<< 24) ||| (b1 <<< 16) ||| (b2 <<< 8) ||| b3) :: words32 rest
  | _ => []

/-- SHA-1 message-schedule expansion: extend 16 words to 80 by
`w[t] = rotl1 (w[t-3] xor w[t-8] xor w[t-14] xor w[t-16])`. -/
def sha1Expand (w : List Nat) : Nat → List Nat
  | 0 => w
  | k + 1 =>
    let n := w.length
    sha1Expand
      (w ++ [rotl32 1 (((w.getD (n - 3) 0) ^^^ (w.getD (n - 8) 0))
                        ^^^ ((w.getD (n - 14) 0) ^^^ (w.getD (n - 16) 0)))]) k

/-- Round function and constant for SHA-1 round `t`. -/
def sha1FK (t b c d : Nat) : Nat × Nat :=
  if t < 20 then ((b &&& c) ||| ((b ^^^ 0xFFFFFFFF) &&& d), 0x5A827999)
  else if t < 40 then (b ^^^ c ^^^ d, 0x6ED9EBA1)
  else if t < 60 then ((b &&& c) ||| (b &&& d) ||| (c &&& d), 0x8F1BBCDC)
  else (b ^^^ c ^^^ d, 0xCA62C1D6)

/-- One SHA-1 round on the five-word state, given `(t, w[t])`. -/
def sha1Round (st : Nat × Nat × Nat × Nat × Nat) (tw : Nat × Nat) :
    Nat × Nat × Nat × Nat × Nat :=
  let (a, b, c, d, e) := st
  let (f, k) := sha1FK tw.1 b c d
  let temp := (rotl32 5 a + f + e + k + tw.2) % 4294967296
  (temp, a, rotl32 30 b, c, d)

/-- Process one 64-byte chunk, updating the five 32-bit hash words. -/
def sha1Chunk (h : Nat × Nat × Nat × Nat × Nat) (chunk : List Nat) :
    Nat × Nat × Nat × Nat × Nat :=
  let w := sha1Expand (words32 chunk) 64
  let (a, b, c, d, e) :=
    ((List.range 80).zip w).foldl sha1Round (h.1, h.2.1, h.2.2.1, h.2.2.2.1, h.2.2.2.2)
  ((h.1 + a) % 4294967296, (h.2.1 + b) % 4294967296, (h.2.2.1 + c) % 4294967296,
   (h.2.2.2.1 + d) % 4294967296, (h.2.2.2.2 + e) % 4294967296)

/-- SHA-1 of a byte list: the 20-byte digest. -/
def sha1 (msg : List Nat) : List Nat :=
  let (h0, h1, h2, h3, h4) :=
    (chunks64 (sha1Pad msg)).foldl sha1Chunk
      (0x67452301, 0xEFCDAB89, 0x98BADCFE, 0x10325476, 0xC3D2E1F0)
  be32 h0 ++ be32 h1 ++ be32 h2 ++ be32 h3 ++ be32 h4

/-! ### RFC 4122 version-5 UUIDs (`uuid.uuid5`) -/

/-- The 16 bytes of `uuid.NAMESPACE_DNS`
(`6ba7b810-9dad-11d1-80b4-00c04fd430c8`). -/
def NAMESPACE_DNS : List Nat :=
  [0x6b, 0xa7, 0xb8, 0x10, 0x9d, 0xad, 0x11, 0xd1,
   0x80, 0xb4, 0x00, 0xc0, 0x4f, 0xd4, 0x30, 0xc8]

/-- Bytes of `uuid.uuid5(namespace, name)`: the first 16 bytes of
`sha1(namespace.bytes + name.encode('utf-8'))` with the version nibble of
byte 6 forced to 5 and the two variant bits of byte 8 forced to `10`. -/
def uuid5 (ns : List Nat) (name : String) : List Nat :=
  let h := (sha1 (ns ++ strBytes name)).take 16
  h.mapIdx fun i b =>
    if i = 6 then (b &&& 0x0F) ||| 0x50
    else if i = 8 then (b &&& 0x3F) ||| 0x80
    else b

/-- Lowercase hex digit. -/
def hexDigit (n : Nat) : Char :=
  if n < 10 then Char.ofNat (48 + n) else Char.ofNat (87 + n)

/-- Two lowercase hex digits of a byte. -/
def byteHex (b : Nat) : String :=
  String.mk [hexDigit (b / 16), hexDigit (b % 16)]

/-- Lowercase hex of a byte list. -/
def bytesHex (l : List Nat) : String :=
  l.foldl (fun s b => s ++ byteHex b) ""

/-- Python `str(uuid)`: 8-4-4-4-12 lowercase hex groups. -/
def uuidToString (b : List Nat) : String :=
  bytesHex (b.take 4) ++ "-" ++ bytesHex ((b.drop 4).take 2) ++ "-"
    ++ bytesHex ((b.drop 6).take 2) ++ "-" ++ bytesHex ((b.drop 8).take 2) ++ "-"
    ++ bytesHex (b.drop 10)

/-! ### JSON values and the dynamic field accesses of the script -/

/-- JSON values, as produced by `json.load`. -/
inductive Json where
  | null : Json
  | bool (b : Bool) : Json
  | num (n : Int) : Json
  | str (s : String) : Json
  | arr (elems : List Json) : Json
  | obj (fields : List (String × Json)) : Json
deriving Repr

/-- First-match association lookup on an object's fields. -/
def lookupField : List (String × Json) → String → Option Json
  | [], _ => none
  | (k, v) :: rest, key => if k = key then some v else lookupField rest key

/-- Key lookup: `some v` when the value is an object carrying the key. -/
def jLookup : Json → String → Option Json
  | .obj kvs, k => lookupField kvs k
  | _, _ => none

/-- Field access `j[k]` where a string is required.  (Python would stringify a non-string
field inside an f-string; only string fields occur in valid schemas and no
claim depends on that coercion, so a non-string field is an error here.) -/
def jGetStr (j : Json) (k : String) : Except String String :=
  match jLookup j k with
  | some (.str s) => .ok s
  | some _ => .error ("TypeError: field " ++ k ++ " is not a string")
  | none => .error ("KeyError: " ++ k)

/-- Field access `j[k]` where a list is required (`for x in j[k]`). -/
def jGetArr (j : Json) (k : String) : Except String (List Json) :=
  match jLookup j k with
  | some (.arr l) => .ok l
  | some _ => .error ("TypeError: field " ++ k ++ " is not a list")
  | none => .error ("KeyError: " ++ k)

/-- Line 24: `schema.get("config", {}).get("uuid_seed", "default_seed")`.
A missing `config` falls back to `{}`; a missing `uuid_seed` falls back to
`"default_seed"`.  A non-object schema or non-object `config` has no `.get`
(AttributeError); a non-string seed would fail inside `uuid.uuid5`. -/
def seedOf : Json → Except String String
  | .obj kvs =>
    match (lookupField kvs "config").getD (.obj []) with
    | .obj ckvs =>
      match (lookupField ckvs "uuid_seed").getD (.str "default_seed") with
      | .str s => .ok s
      | _ => .error "TypeError: uuid_seed is not a string"
    | _ => .error "AttributeError: config is not an object"
  | _ => .error "AttributeError: schema is not an object"

/-- Value of the seed extraction as a function of the looked-up
`uuid_seed` entry alone (used to state that nothing else of `config` is
read). -/
def seedFromEntry (o : Option Json) : Except String String :=
  match o.getD (.str "default_seed") with
  | .str s => .ok s
  | _ => .error "TypeError: uuid_seed is not a string"

/-- Field access `schema["pages"]`, iterated as a list (lines 34-37). -/
def pagesOf : Json → Except String (List Json)
  | .obj kvs =>
    match lookupField kvs "pages" with
    | some (.arr ps) => .ok ps
    | some _ => .error "TypeError: pages is not a list"
    | none => .error "KeyError: pages"
  | _ => .error "TypeError: schema is not an object"

/-- Lines 42-43: `lesson if isinstance(lesson, str) else lesson['name']`. -/
def lessonNameOf : Json → Except String String
  | .str s => .ok s
  | j =>
    match jLookup j "name" with
    | some (.str s) => .ok s
    | some _ => .error "TypeError: lesson name is not a string"
    | none => .error "KeyError: name"

/-! ### Output data and the registry dict -/

/-- One generated level: `{"num": i, "uid": u}` (line 54). -/
structure Level where
  num : Nat
  uid : String
deriving DecidableEq, Repr

/-- A normalized lesson: `{"name": lesson_name, "levels": [...]}` (line 44). -/
structure LessonOut where
  name : String
  levels : List Level
deriving DecidableEq, Repr

/-- A section after its lesson list is replaced (line 66). -/
structure SectionOut where
  heading : String
  lessons : List LessonOut
deriving DecidableEq, Repr

/-- A page after processing. -/
structure PageOut where
  title : String
  sections : List SectionOut
deriving DecidableEq, Repr

/-- One nav item `{"title": t, "url": f"{t}.html"}` (lines 34-35). -/
structure NavItem where
  title : String
  url : String
deriving DecidableEq, Repr

/-- A registry value `[page_title, section_heading, lesson_name, i]`
(lines 57-62). -/
structure RegEntry where
  page : String
  heading : String
  lesson : String
  level : Nat
deriving DecidableEq, Repr

/-- The registry dict, in insertion order. -/
abbrev Reg := List (String × RegEntry)

/-- Membership of a key in the dict. -/
def hasKey (reg : Reg) (k : String) : Bool :=
  reg.any fun p => p.1 == k

/-- Python dict assignment `reg[k] = v`: an existing key keeps its position
and gets the new value, a fresh key is appended. -/
def dictInsert (reg : Reg) (k : String) (v : RegEntry) : Reg :=
  if hasKey reg k then reg.map fun p => if p.1 = k then (k, v) else p
  else reg ++ [(k, v)]

/-! ### The identifier derivation and the main loop (lines 24-66) -/

/-- Line 50: `f"{page['title']}|{section['heading']}|{lesson_name}|{i}"`,
literal pipes, no escaping. -/
def compositeKey (title heading name : String) (i : Nat) : String :=
  title ++ "|" ++ heading ++ "|" ++ name ++ "|" ++ toString i

/-- Line 52: `str(uuid.uuid5(NAMESPACE, unique_path))`. -/
def levelUid (ns : List Nat) (title heading name : String) (i : Nat) : String :=
  uuidToString (uuid5 ns (compositeKey title heading name i))

/-- Lines 47-62: `for i in range(1, 4)` appends `{"num": i, "uid": u}` to the
levels and stores `u -> [title, heading, name, i]` in the registry. -/
def processLevels (ns : List Nat) (title heading name : String) (reg : Reg) :
    List Level × Reg :=
  [1, 2, 3].foldl
    (fun acc i =>
      let u := levelUid ns title heading name i
      (acc.1 ++ [⟨i, u⟩], dictInsert acc.2 u ⟨title, heading, name, i⟩))
    ([], reg)

/-- Lines 42-63: normalize one lesson and generate its three levels. -/
def processLesson (ns : List Nat) (title heading : String) (lj : Json)
    (reg : Reg) : Except String (LessonOut × Reg) :=
  match lessonNameOf lj with
  | .error e => .error e
  | .ok name =>
    let r := processLevels ns title heading name reg
    .ok (⟨name, r.1⟩, r.2)

/-- Lines 40-63: the loop over `section["lessons"]`, building
`processed_lessons` in order while the registry accumulates. -/
def processLessons (ns : List Nat) (title heading : String) :
    List Json → Reg → Except String (List LessonOut × Reg)
  | [], reg => .ok ([], reg)
  | lj :: rest, reg =>
    match processLesson ns title heading lj reg with
    | .error e => .error e
    | .ok (lo, reg1) =>
      match processLessons ns title heading rest reg1 with
      | .error e => .error e
      | .ok (los, reg2) => .ok (lo :: los, reg2)

/-- Lines 38-66: process one section and replace its lesson list. -/
def processSection (ns : List Nat) (title : String) (sj : Json) (reg : Reg) :
    Except String (SectionOut × Reg) :=
  match jGetStr sj "heading" with
  | .error e => .error e
  | .ok heading =>
    match jGetArr sj "lessons" with
    | .error e => .error e
    | .ok ljs =>
      match processLessons ns title heading ljs reg with
      | .error e => .error e
      | .ok (los, reg') => .ok (⟨heading, los⟩, reg')

/-- The loop over `page["sections"]`. -/
def processSections (ns : List Nat) (title : String) :
    List Json → Reg → Except String (List SectionOut × Reg)
  | [], reg => .ok ([], reg)
  | sj :: rest, reg =>
    match processSection ns title sj reg with
    | .error e => .error e
    | .ok (so, reg1) =>
      match processSections ns title rest reg1 with
      | .error e => .error e
      | .ok (sos, reg2) => .ok (so :: sos, reg2)

/-- Lines 37-66: process one page. -/
def processPage (ns : List Nat) (pj : Json) (reg : Reg) :
    Except String (PageOut × Reg) :=
  match jGetStr pj "title" with
  | .error e => .error e
  | .ok title =>
    match jGetArr pj "sections" with
    | .error e => .error e
    | .ok ss =>
      match processSections ns title ss reg with
      | .error e => .error e
      | .ok (sos, reg') => .ok (⟨title, sos⟩, reg')

/-- The loop over `schema["pages"]`. -/
def processPages (ns : List Nat) :
    List Json → Reg → Except String (List PageOut × Reg)
  | [], reg => .ok ([], reg)
  | pj :: rest, reg =>
    match processPage ns pj reg with
    | .error e => .error e
    | .ok (po, reg1) =>
      match processPages ns rest reg1 with
      | .error e => .error e
      | .ok (pos, reg2) => .ok (po :: pos, reg2)

/-- Lines 34-35: `[{"title": p["title"], "url": f"{p['title']}.html"} for p in
schema["pages"]]`, evaluated before the main loop. -/
def navItems : List Json → Except String (List NavItem)
  | [] => .ok []
  | pj :: rest =>
    match jGetStr pj "title" with
    | .error e => .error e
    | .ok t =>
      match navItems rest with
      | .error e => .error e
      | .ok items => .ok (⟨t, t ++ ".html"⟩ :: items)

/-- The core of `build()` (lines 24-66): seed, namespace, nav items, then the
page/section/lesson walk.  Returns the nav list, the processed pages (the
mutated schema's content) and the registry; the file writes that follow in
the script happen only after this succeeds and are external I/O. -/
def build (schema : Json) : Except String (List NavItem × List PageOut × Reg) :=
  match seedOf schema with
  | .error e => .error e
  | .ok seed =>
    match pagesOf schema with
    | .error e => .error e
    | .ok ps =>
      match navItems ps with
      | .error e => .error e
      | .ok nav =>
        match processPages (uuid5 NAMESPACE_DNS seed) ps [] with
        | .error e => .error e
        | .ok (pos, reg) => .ok (nav, pos, reg)

/-! ### Derived descriptions of the build's output, used to state the claims -/

/-- The three levels generated for one lesson (what lines 47-54 append). -/
def levelsOut (ns : List Nat) (title heading name : String) : List Level :=
  [⟨1, levelUid ns title heading name 1⟩,
   ⟨2, levelUid ns title heading name 2⟩,
   ⟨3, levelUid ns title heading name 3⟩]

/-- The registry pair a generated level gives rise to (lines 57-62). -/
def levelPair (title heading name : String) (lv : Level) : String × RegEntry :=
  (lv.uid, ⟨title, heading, name, lv.num⟩)

/-- Registry pairs contributed by one processed lesson, in insertion order. -/
def lessonPairs (title heading : String) (lo : LessonOut) :
    List (String × RegEntry) :=
  lo.levels.map (levelPair title heading lo.name)

/-- Registry pairs contributed by one processed section, in insertion order. -/
def sectionPairs (title : String) (so : SectionOut) : List (String × RegEntry) :=
  so.lessons.flatMap (lessonPairs title so.heading)

/-- Registry pairs contributed by one processed page, in insertion order. -/
def pagePairs (po : PageOut) : List (String × RegEntry) :=
  po.sections.flatMap (sectionPairs po.title)

/-- All registry pairs of a build, in insertion order. -/
def allPairs (pos : List PageOut) : List (String × RegEntry) :=
  pos.flatMap pagePairs

/-- Folding Python dict assignments over a list of pairs. -/
def dictFold (reg : Reg) (pairs : List (String × RegEntry)) : Reg :=
  pairs.foldl (fun r p => dictInsert r p.1 p.2) reg

/-- Value stored under a key: the first (for a dict: the only) entry. -/
def regGet : Reg → String → Option RegEntry
  | [], _ => none
  | p :: rest, k => if p.1 = k then some p.2 else regGet rest k

/-- The three composite keys of one lesson. -/
def lessonKeys (title heading name : String) : List String :=
  [1, 2, 3].map (compositeKey title heading name)

/-- All composite keys of one processed section, in generation order. -/
def sectionKeys (title : String) (so : SectionOut) : List String :=
  so.lessons.flatMap fun lo => lessonKeys title so.heading lo.name

/-- All composite keys of one processed page, in generation order. -/
def pageKeys (po : PageOut) : List String :=
  po.sections.flatMap (sectionKeys po.title)

/-- All composite keys of a build, in generation order. -/
def allKeys (pos : List PageOut) : List String :=
  pos.flatMap pageKeys

/-- Total lesson count of the processed pages. -/
def lessonCountOut (pos : List PageOut) : Nat :=
  (pos.map fun po => (po.sections.map fun so => so.lessons.length).sum).sum

/-- Array-valued field of a JSON value, defaulting to the empty list. -/
def jArrD (j : Json) (k : String) : List Json :=
  match jLookup j k with
  | some (.arr l) => l
  | _ => []

/-- Total lesson count of an input pages list. -/
def inputLessonCount (psJ : List Json) : Nat :=
  (psJ.map fun pj =>
    ((jArrD pj "sections").map fun sj => (jArrD sj "lessons").length).sum).sum

/-- Correspondence of one input lesson with its normalized output: the name
is the string itself or the object's `name` field, and the generated level
numbers are exactly `1, 2, 3` in ascending order. -/
def lessonMatches (lj : Json) (lo : LessonOut) : Bool :=
  (match lessonNameOf lj with
   | .ok n => n == lo.name
   | .error _ => false)
  && (lo.levels.map Level.num == [1, 2, 3])

/-- Pointwise correspondence of a lesson list: same length, same order. -/
def lessonsMatch : List Json → List LessonOut → Bool
  | [], [] => true
  | lj :: ljs, lo :: los => lessonMatches lj lo && lessonsMatch ljs los
  | _, _ => false

/-- Correspondence of one input section with its processed output. -/
def sectionMatches (sj : Json) (so : SectionOut) : Bool :=
  match jLookup sj "heading", jLookup sj "lessons" with
  | some (.str h), some (.arr ljs) => h == so.heading && lessonsMatch ljs so.lessons
  | _, _ => false

/-- Pointwise correspondence of a section list. -/
def sectionsMatch : List Json → List SectionOut → Bool
  | [], [] => true
  | sj :: sjs, so :: sos => sectionMatches sj so && sectionsMatch sjs sos
  | _, _ => false

/-- Correspondence of one input page with its processed output. -/
def pageMatches (pj : Json) (po : PageOut) : Bool :=
  match jLookup pj "title", jLookup pj "sections" with
  | some (.str t), some (.arr ss) => t == po.title && sectionsMatch ss po.sections
  | _, _ => false

/-- Pointwise correspondence of the pages list. -/
def pagesMatch : List Json → List PageOut → Bool
  | [], [] => true
  | pj :: pjs, po :: pos => pageMatches pj po && pagesMatch pjs pos
  | _, _ => false

/-! ### Structural well-formedness (the shape §6 of the spec describes) -/

/-- A lesson is well formed when its name extraction succeeds: it is a
string, or an object with a string `name` field. -/
def lessonWF (lj : Json) : Bool :=
  match lessonNameOf lj with
  | .ok _ => true
  | .error _ => false

/-- A section is well formed: string `heading`, list `lessons` (possibly
empty) of well-formed lessons. -/
def sectionWF (sj : Json) : Bool :=
  match jGetStr sj "heading", jGetArr sj "lessons" with
  | .ok _, .ok ljs => ljs.all lessonWF
  | _, _ => false

/-- A page is well formed: string `title`, list `sections` (possibly empty)
of well-formed sections. -/
def pageWF (pj : Json) : Bool :=
  match jGetStr pj "title", jGetArr pj "sections" with
  | .ok _, .ok ss => ss.all sectionWF
  | _, _ => false

/-- A schema is well formed: the seed extraction succeeds (a missing
`config` or `uuid_seed` is fine), `pages` is a list (possibly empty) of
well-formed pages. -/
def schemaWF (schema : Json) : Bool :=
  match seedOf schema, pagesOf schema with
  | .ok _, .ok ps => ps.all pageWF
  | _, _ => false

/-! ### Concrete example schemas (the worked example of spec §8, a
pipe-collision schema, and degenerate schemas) with their build outputs -/

/-- The spec §8 example: one page `Sounds`, one section `Vowels`, lesson
`Short A`, seed `test`. -/
def exSchema : Json :=
  .obj [("config", .obj [("uuid_seed", .str "test")]),
        ("pages", .arr [.obj [("title", .str "Sounds"),
          ("sections", .arr [.obj [("heading", .str "Vowels"),
            ("lessons", .arr [.str "Short A"])]])]])]

/-- The pages array of `exSchema`. -/
def exPagesJ : List Json :=
  [.obj [("title", .str "Sounds"),
    ("sections", .arr [.obj [("heading", .str "Vowels"),
      ("lessons", .arr [.str "Short A"])]])]]

/-- Identifier of `Sounds|Vowels|Short A|1` under seed `test`. -/
def exUid1 : String := "b20af703-756c-5872-9ada-f0d96a48c952"

/-- Identifier of `Sounds|Vowels|Short A|2` under seed `test`. -/
def exUid2 : String := "8f5666c7-44b0-542e-838e-8d1807717009"

/-- Identifier of `Sounds|Vowels|Short A|3` under seed `test`. -/
def exUid3 : String := "3a49d47c-c676-598e-8819-ed9a36ecc5bf"

/-- The processed pages of `exSchema`. -/
def exPages : List PageOut :=
  [⟨"Sounds", [⟨"Vowels",
    [⟨"Short A", [⟨1, exUid1⟩, ⟨2, exUid2⟩, ⟨3, exUid3⟩]⟩]⟩]⟩]

/-- The nav items of `exSchema`. -/
def exNav : List NavItem := [⟨"Sounds", "Sounds.html"⟩]

/-- The registry of `exSchema`. -/
def exReg : Reg :=
  [(exUid1, ⟨"Sounds", "Vowels", "Short A", 1⟩),
   (exUid2, ⟨"Sounds", "Vowels", "Short A", 2⟩),
   (exUid3, ⟨"Sounds", "Vowels", "Short A", 3⟩)]

/-- A schema whose two distinct lesson levels collide through embedded
pipes: `A|B / C / L` and `A / B|C / L` both give composite key `A|B|C|L|i`. -/
def colSchema : Json :=
  .obj [("config", .obj [("uuid_seed", .str "test")]),
        ("pages", .arr [
          .obj [("title", .str "A|B"),
            ("sections", .arr [.obj [("heading", .str "C"),
              ("lessons", .arr [.str "L"])]])],
          .obj [("title", .str "A"),
            ("sections", .arr [.obj [("heading", .str "B|C"),
              ("lessons", .arr [.obj [("name", .str "L")]])]])]])]

/-- Identifier of the colliding key `A|B|C|L|1` under seed `test`. -/
def colUid1 : String := "90b55f12-f02d-5b45-abe7-3d86b31e4864"

/-- Identifier of the colliding key `A|B|C|L|2` under seed `test`. -/
def colUid2 : String := "2113ebb6-1202-50a0-b9b1-87a3d2ea7644"

/-- Identifier of the colliding key `A|B|C|L|3` under seed `test`. -/
def colUid3 : String := "6e140394-f9d8-5583-a4b0-3507177bcbef"

/-- The processed pages of `colSchema`: both lessons carry the same uids. -/
def colPages : List PageOut :=
  [⟨"A|B", [⟨"C", [⟨"L", [⟨1, colUid1⟩, ⟨2, colUid2⟩, ⟨3, colUid3⟩]⟩]⟩]⟩,
   ⟨"A", [⟨"B|C", [⟨"L", [⟨1, colUid1⟩, ⟨2, colUid2⟩, ⟨3, colUid3⟩]⟩]⟩]⟩]

/-- The nav items of `colSchema`. -/
def colNav : List NavItem := [⟨"A|B", "A|B.html"⟩, ⟨"A", "A.html"⟩]

/-- The registry of `colSchema`: three entries, each holding the tuple of
the occurrence processed last (page `A`, heading `B|C`). -/
def colReg : Reg :=
  [(colUid1, ⟨"A", "B|C", "L", 1⟩),
   (colUid2, ⟨"A", "B|C", "L", 2⟩),
   (colUid3, ⟨"A", "B|C", "L", 3⟩)]

/-- A schema with no `pages` key. -/
def noPagesSchema : Json := .obj [("config", .obj [])]

/-- A well-formed schema with a page whose one section has no lessons. -/
def emptyLessonsSchema : Json :=
  .obj [("pages", .arr [.obj [("title", .str "P"),
    ("sections", .arr [.obj [("heading", .str "H"),
      ("lessons", .arr [])]])]])]

/-! ### Lemmas about the Python dict semantics -/

theorem hasKey_iff {reg : Reg} {k : String} :
    hasKey reg k = true ↔ k ∈ reg.map Prod.fst := by
  simp only [hasKey, List.any_eq_true, beq_iff_eq, List.mem_map]

theorem not_mem_of_hasKey_eq_false {reg : Reg} {k : String}
    (h : hasKey reg k = false) : k ∉ reg.map Prod.fst := by
  intro hm
  rw [hasKey_iff.mpr hm] at h
  cases h

theorem dictInsert_map_fst (reg : Reg) (k : String) (v : RegEntry) :
    (dictInsert reg k v).map Prod.fst =
      if hasKey reg k then reg.map Prod.fst else reg.map Prod.fst ++ [k] := by
  unfold dictInsert
  split
  · rw [List.map_map]
    refine List.map_congr_left ?_
    intro p _
    by_cases hc : p.1 = k
    · simp [hc]
    · simp [hc]
  · simp

theorem nodup_dictInsert (reg : Reg) (k : String) (v : RegEntry)
    (h : (reg.map Prod.fst).Nodup) :
    ((dictInsert reg k v).map Prod.fst).Nodup := by
  rw [dictInsert_map_fst]
  split
  · exact h
  · next hk =>
    have hnotin : k ∉ reg.map Prod.fst :=
      not_mem_of_hasKey_eq_false (by simpa using hk)
    simp [List.nodup_append, h, hnotin]

theorem regGet_update_of_hasKey {reg : Reg} {k : String} (v : RegEntry)
    (h : hasKey reg k = true) :
    regGet (reg.map fun p => if p.1 = k then (k, v) else p) k = some v := by
  induction reg with
  | nil => cases h
  | cons p rest ih =>
    simp only [hasKey, List.any_cons] at h
    by_cases hc : p.1 = k
    · simp [regGet, hc]
    · have hrest : hasKey rest k = true := by
        rcases Bool.or_eq_true_iff.mp h with h1 | h1
        · exact absurd (beq_iff_eq.mp h1) hc
        · exact h1
      simp only [List.map_cons, if_neg hc, regGet, hc, if_false]
      exact ih hrest

theorem regGet_append_of_hasKey_eq_false {k : String} (l : Reg) :
    ∀ {reg : Reg}, hasKey reg k = false → regGet (reg ++ l) k = regGet l k := by
  intro reg
  induction reg with
  | nil => intro _; rfl
  | cons p rest ih =>
    intro h
    simp only [hasKey, List.any_cons, Bool.or_eq_false_iff] at h
    have hc : p.1 ≠ k := by simpa using h.1
    simp only [List.cons_append, regGet, if_neg hc]
    exact ih h.2

theorem regGet_append_or (l1 l2 : Reg) (a : String) :
    regGet (l1 ++ l2) a = (regGet l1 a <|> regGet l2 a) := by
  induction l1 with
  | nil => simp [regGet]
  | cons p rest ih =>
    simp only [List.cons_append, regGet]
    by_cases hd : p.1 = a
    · simp [hd]
    · simp only [if_neg hd]
      exact ih

theorem regGet_dictInsert_self (reg : Reg) (k : String) (v : RegEntry) :
    regGet (dictInsert reg k v) k = some v := by
  unfold dictInsert
  split
  · next h => exact regGet_update_of_hasKey v h
  · next h =>
    rw [regGet_append_of_hasKey_eq_false _ (by simpa using h)]
    simp [regGet]

theorem regGet_update_ne (reg : Reg) {k k' : String} (v : RegEntry)
    (hne : k' ≠ k) :
    regGet (reg.map fun p => if p.1 = k then (k, v) else p) k' =
      regGet reg k' := by
  induction reg with
  | nil => rfl
  | cons p rest ih =>
    by_cases hc : p.1 = k
    · simp only [List.map_cons, if_pos hc, regGet, if_neg (Ne.symm hne),
        if_neg (hc ▸ (fun he => hne he.symm) : ¬p.1 = k')]
      exact ih
    · simp only [List.map_cons, if_neg hc, regGet]
      by_cases hd : p.1 = k'
      · simp [hd]
      · simp only [if_neg hd]
        exact ih

theorem regGet_dictInsert_ne (reg : Reg) {k k' : String} (v : RegEntry)
    (hne : k' ≠ k) :
    regGet (dictInsert reg k v) k' = regGet reg k' := by
  unfold dictInsert
  split
  · exact regGet_update_ne reg v hne
  · rw [regGet_append_or]
    have hkk : k ≠ k' := Ne.symm hne
    have h1 : regGet [(k, v)] k' = none := by simp [regGet, hkk]
    rw [h1]
    cases regGet reg k'
    · rfl
    · rfl

theorem mem_dictInsert {reg : Reg} {k : String} {v : RegEntry}
    {x : String × RegEntry} (h : x ∈ dictInsert reg k v) :
    x ∈ reg ∨ x = (k, v) := by
  unfold dictInsert at h
  split at h
  · rcases List.mem_map.mp h with ⟨p, hp, he⟩
    by_cases hc : p.1 = k
    · right; rw [← he]; simp [hc]
    · left; rw [← he]; simpa [hc] using hp
  · rcases List.mem_append.mp h with h1 | h1
    · left; exact h1
    · right; simpa using h1

/-! ### Lemmas about folding dict assignments -/

theorem dictFold_nil (reg : Reg) : dictFold reg [] = reg := rfl

theorem dictFold_cons (reg : Reg) (p : String × RegEntry)
    (ps : List (String × RegEntry)) :
    dictFold reg (p :: ps) = dictFold (dictInsert reg p.1 p.2) ps := rfl

theorem dictFold_append (reg : Reg) (l1 l2 : List (String × RegEntry)) :
    dictFold reg (l1 ++ l2) = dictFold (dictFold reg l1) l2 := by
  simp [dictFold, List.foldl_append]

theorem mem_dictFold {pairs : List (String × RegEntry)} :
    ∀ {reg : Reg} {x : String × RegEntry}, x ∈ dictFold reg pairs →
      x ∈ reg ∨ x ∈ pairs := by
  induction pairs with
  | nil => exact fun h => Or.inl h
  | cons p ps ih =>
    intro reg x h
    rw [dictFold_cons] at h
    rcases ih h with h1 | h1
    · rcases mem_dictInsert h1 with h2 | h2
      · exact Or.inl h2
      · exact Or.inr (by simp [h2])
    · exact Or.inr (List.mem_cons_of_mem _ h1)

theorem nodup_dictFold (pairs : List (String × RegEntry)) :
    ∀ {reg : Reg}, (reg.map Prod.fst).Nodup →
      ((dictFold reg pairs).map Prod.fst).Nodup := by
  induction pairs with
  | nil => exact fun h => h
  | cons p ps ih =>
    intro reg h
    rw [dictFold_cons]
    exact ih (nodup_dictInsert _ _ _ h)

theorem hasKey_dictInsert_mono {reg : Reg} {k : String} (k' : String)
    (v : RegEntry) (h : hasKey reg k = true) :
    hasKey (dictInsert reg k' v) k = true := by
  rw [hasKey_iff, dictInsert_map_fst]
  split
  · exact hasKey_iff.mp h
  · exact List.mem_append_left _ (hasKey_iff.mp h)

theorem hasKey_dictFold_mono (pairs : List (String × RegEntry)) :
    ∀ {reg : Reg} {k : String}, hasKey reg k = true →
      hasKey (dictFold reg pairs) k = true := by
  induction pairs with
  | nil => exact fun h => h
  | cons p ps ih =>
    intro reg k h
    exact ih (hasKey_dictInsert_mono _ _ h)

theorem hasKey_dictFold_of_mem {pairs : List (String × RegEntry)} :
    ∀ {reg : Reg} {u : String}, u ∈ pairs.map Prod.fst →
      hasKey (dictFold reg pairs) u = true := by
  induction pairs with
  | nil => exact fun h => absurd h (List.not_mem_nil _)
  | cons p ps ih =>
    intro reg u h
    rw [dictFold_cons]
    rcases List.mem_cons.mp h with h1 | h1
    · refine hasKey_dictFold_mono ps ?_
      rw [hasKey_iff, dictInsert_map_fst]
      split
      · next hk => exact h1 ▸ hasKey_iff.mp hk
      · exact List.mem_append_right _ (by simp [h1])
    · exact ih h1

theorem regGet_dictFold (pairs : List (String × RegEntry)) :
    ∀ (reg : Reg) (u : String),
      regGet (dictFold reg pairs) u =
        (regGet pairs.reverse u <|> regGet reg u) := by
  induction pairs with
  | nil => intro reg u; simp [dictFold_nil, regGet]
  | cons p ps ih =>
    intro reg u
    rw [dictFold_cons, ih, List.reverse_cons, regGet_append_or]
    by_cases hc : u = p.1
    · rw [hc, regGet_dictInsert_self]
      cases regGet ps.reverse p.1
      · simp [regGet]
      · simp [regGet]
    · rw [regGet_dictInsert_ne reg p.2 hc]
      have hc2 : ¬p.1 = u := fun he => hc he.symm
      have h1 : regGet [p] u = none := by
        simp [regGet, hc2]
      rw [h1]
      cases regGet ps.reverse u
      · simp
      · simp

theorem dictFold_of_fresh {pairs : List (String × RegEntry)} :
    ∀ reg : Reg, (∀ k ∈ pairs.map Prod.fst, hasKey reg k = false) →
    (pairs.map Prod.fst).Nodup → dictFold reg pairs = reg ++ pairs := by
  induction pairs with
  | nil => intro reg _ _; simp [dictFold_nil]
  | cons p ps ih =>
    intro reg hfresh hnodup
    have hp : hasKey reg p.1 = false := hfresh p.1 (by simp)
    have hins : dictInsert reg p.1 p.2 = reg ++ [p] := by
      unfold dictInsert
      rw [if_neg (by simp [hp])]
    rw [dictFold_cons, hins, ih (reg ++ [p]) ?_ ?_, List.append_assoc]
    · rfl
    · intro k hk
      have hk1 : hasKey reg k = false := hfresh k (by simp [hk])
      have hk2 : k ≠ p.1 := by
        simp only [List.map_cons, List.nodup_cons] at hnodup
        intro he
        exact hnodup.1 (he ▸ hk)
      simp only [hasKey, List.any_append, Bool.or_eq_false_iff]
      refine ⟨hk1, ?_⟩
      have hk3 : ¬p.1 = k := fun he => hk2 he.symm
      simp [hk3]
    · exact (List.nodup_cons.mp (by simpa using hnodup)).2

theorem countP_eq_zero_of_not_mem {reg : Reg} {u : String}
    (h : u ∉ reg.map Prod.fst) :
    reg.countP (fun p => p.1 == u) = 0 := by
  induction reg with
  | nil => rfl
  | cons p rest ih =>
    simp only [List.map_cons, List.mem_cons, not_or] at h
    rw [List.countP_cons]
    have hb : (p.1 == u) = false := beq_eq_false_iff_ne.mpr (fun he => h.1 he.symm)
    rw [ih h.2, hb]
    rfl

theorem countP_eq_one_of_nodup {reg : Reg} {u : String}
    (hnd : (reg.map Prod.fst).Nodup) (hm : u ∈ reg.map Prod.fst) :
    reg.countP (fun p => p.1 == u) = 1 := by
  induction reg with
  | nil => cases hm
  | cons p rest ih =>
    simp only [List.map_cons, List.nodup_cons] at hnd
    rw [List.countP_cons]
    rcases List.mem_cons.mp hm with h1 | h1
    · have hz : rest.countP (fun p => p.1 == u) = 0 :=
        countP_eq_zero_of_not_mem (h1 ▸ hnd.1)
      rw [hz, if_pos (beq_iff_eq.mpr h1.symm)]
    · have hb : (p.1 == u) = false := beq_eq_false_iff_ne.mpr (by
        intro he
        exact hnd.1 (he ▸ h1))
      rw [ih hnd.2 h1, hb]
      rfl

theorem regGet_isSome_of_mem {l : Reg} {u : String}
    (h : u ∈ l.map Prod.fst) : ∃ v, regGet l u = some v := by
  induction l with
  | nil => cases h
  | cons p rest ih =>
    simp only [List.map_cons, List.mem_cons] at h
    by_cases hc : p.1 = u
    · exact ⟨p.2, by simp [regGet, hc]⟩
    · rcases h with h1 | h1
      · exact absurd h1.symm hc
      · rcases ih h1 with ⟨v, hv⟩
        exact ⟨v, by simp [regGet, hc, hv]⟩

/-! ### Inversion lemmas: the shape of a successful run -/

theorem processLevels_eq (ns : List Nat) (t hdg n : String) (reg : Reg) :
    processLevels ns t hdg n reg =
      (levelsOut ns t hdg n,
       dictFold reg (lessonPairs t hdg ⟨n, levelsOut ns t hdg n⟩)) := rfl

theorem processLesson_spec {ns : List Nat} {t hdg : String} {lj : Json}
    {reg : Reg} {lo : LessonOut} {reg' : Reg}
    (hp : processLesson ns t hdg lj reg = .ok (lo, reg')) :
    lessonNameOf lj = .ok lo.name ∧ lo.levels = levelsOut ns t hdg lo.name ∧
      reg' = dictFold reg (lessonPairs t hdg lo) := by
  unfold processLesson at hp
  split at hp
  · cases hp
  · next name hn =>
    rw [processLevels_eq] at hp
    simp only [Except.ok.injEq, Prod.mk.injEq] at hp
    obtain ⟨h1, h2⟩ := hp
    subst h1
    subst h2
    exact ⟨hn, rfl, rfl⟩

theorem processLessons_spec {ns : List Nat} {t hdg : String} :
    ∀ {ljs : List Json} {reg : Reg} {los : List LessonOut} {reg' : Reg},
      processLessons ns t hdg ljs reg = .ok (los, reg') →
      reg' = dictFold reg (los.flatMap (lessonPairs t hdg)) ∧
        (∀ lo ∈ los, lo.levels = levelsOut ns t hdg lo.name) ∧
        lessonsMatch ljs los = true := by
  intro ljs
  induction ljs with
  | nil =>
    intro reg los reg' hp
    unfold processLessons at hp
    simp only [Except.ok.injEq, Prod.mk.injEq] at hp
    obtain ⟨h1, h2⟩ := hp
    subst h1
    subst h2
    exact ⟨rfl, by simp, rfl⟩
  | cons lj rest ih =>
    intro reg los reg' hp
    unfold processLessons at hp
    split at hp
    · cases hp
    · next lo1 reg1 hp1 =>
      split at hp
      · cases hp
      · next los2 reg2 hp2 =>
        simp only [Except.ok.injEq, Prod.mk.injEq] at hp
        obtain ⟨h1, h2⟩ := hp
        subst h1
        subst h2
        obtain ⟨hn1, hl1, hr1⟩ := processLesson_spec hp1
        obtain ⟨hr2, hsh, hm⟩ := ih hp2
        refine ⟨?_, ?_, ?_⟩
        · rw [hr2, hr1, List.flatMap_cons, dictFold_append]
        · intro lo hlo
          rcases List.mem_cons.mp hlo with rfl | hlo2
          · exact hl1
          · exact hsh lo hlo2
        · simp only [lessonsMatch, lessonMatches, hn1, hm, hl1, levelsOut,
            Bool.and_eq_true, beq_self_eq_true, List.map_cons, List.map_nil,
            and_true]

theorem jGetStr_ok {j : Json} {k s : String} (h : jGetStr j k = .ok s) :
    jLookup j k = some (.str s) := by
  unfold jGetStr at h
  split at h
  · next s' heq =>
    injection h with h1
    subst h1
    exact heq
  · cases h
  · cases h

theorem jGetArr_ok {j : Json} {k : String} {l : List Json}
    (h : jGetArr j k = .ok l) : jLookup j k = some (.arr l) := by
  unfold jGetArr at h
  split at h
  · next l' heq =>
    injection h with h1
    subst h1
    exact heq
  · cases h
  · cases h

theorem processSection_spec {ns : List Nat} {t : String} {sj : Json}
    {reg : Reg} {so : SectionOut} {reg' : Reg}
    (hp : processSection ns t sj reg = .ok (so, reg')) :
    reg' = dictFold reg (sectionPairs t so) ∧
      (∀ lo ∈ so.lessons, lo.levels = levelsOut ns t so.heading lo.name) ∧
      sectionMatches sj so = true := by
  unfold processSection at hp
  split at hp
  · cases hp
  · next hdg hh =>
    split at hp
    · cases hp
    · next ljs hl =>
      split at hp
      · cases hp
      · next los reg2 hpl =>
        simp only [Except.ok.injEq, Prod.mk.injEq] at hp
        obtain ⟨h1, h2⟩ := hp
        subst h1
        subst h2
        obtain ⟨hr, hsh, hm⟩ := processLessons_spec hpl
        refine ⟨hr, hsh, ?_⟩
        simp only [sectionMatches, jGetStr_ok hh, jGetArr_ok hl,
          beq_self_eq_true, Bool.and_eq_true, hm]
        exact ⟨trivial, trivial⟩

theorem processSections_spec {ns : List Nat} {t : String} :
    ∀ {sjs : List Json} {reg : Reg} {sos : List SectionOut} {reg' : Reg},
      processSections ns t sjs reg = .ok (sos, reg') →
      reg' = dictFold reg (sos.flatMap (sectionPairs t)) ∧
        (∀ so ∈ sos, ∀ lo ∈ so.lessons,
          lo.levels = levelsOut ns t so.heading lo.name) ∧
        sectionsMatch sjs sos = true := by
  intro sjs
  induction sjs with
  | nil =>
    intro reg sos reg' hp
    unfold processSections at hp
    simp only [Except.ok.injEq, Prod.mk.injEq] at hp
    obtain ⟨h1, h2⟩ := hp
    subst h1
    subst h2
    exact ⟨rfl, by simp, rfl⟩
  | cons sj rest ih =>
    intro reg sos reg' hp
    unfold processSections at hp
    split at hp
    · cases hp
    · next so1 reg1 hp1 =>
      split at hp
      · cases hp
      · next sos2 reg2 hp2 =>
        simp only [Except.ok.injEq, Prod.mk.injEq] at hp
        obtain ⟨h1, h2⟩ := hp
        subst h1
        subst h2
        obtain ⟨hr1, hsh1, hm1⟩ := processSection_spec hp1
        obtain ⟨hr2, hsh2, hm2⟩ := ih hp2
        refine ⟨?_, ?_, ?_⟩
        · rw [hr2, hr1, List.flatMap_cons, dictFold_append]
        · intro so hso
          rcases List.mem_cons.mp hso with rfl | hso2
          · exact hsh1
          · exact hsh2 so hso2
        · simp only [sectionsMatch, Bool.and_eq_true, hm1, hm2]
          exact ⟨trivial, trivial⟩

theorem processPage_spec {ns : List Nat} {pj : Json} {reg : Reg}
    {po : PageOut} {reg' : Reg}
    (hp : processPage ns pj reg = .ok (po, reg')) :
    reg' = dictFold reg (pagePairs po) ∧
      (∀ so ∈ po.sections, ∀ lo ∈ so.lessons,
        lo.levels = levelsOut ns po.title so.heading lo.name) ∧
      pageMatches pj po = true := by
  unfold processPage at hp
  split at hp
  · cases hp
  · next t ht =>
    split at hp
    · cases hp
    · next sjs hs =>
      split at hp
      · cases hp
      · next sos reg2 hps =>
        simp only [Except.ok.injEq, Prod.mk.injEq] at hp
        obtain ⟨h1, h2⟩ := hp
        subst h1
        subst h2
        obtain ⟨hr, hsh, hm⟩ := processSections_spec hps
        refine ⟨hr, hsh, ?_⟩
        simp only [pageMatches, jGetStr_ok ht, jGetArr_ok hs,
          beq_self_eq_true, Bool.and_eq_true, hm]
        exact ⟨trivial, trivial⟩

theorem processPages_spec {ns : List Nat} :
    ∀ {pjs : List Json} {reg : Reg} {pos : List PageOut} {reg' : Reg},
      processPages ns pjs reg = .ok (pos, reg') →
      reg' = dictFold reg (allPairs pos) ∧
        (∀ po ∈ pos, ∀ so ∈ po.sections, ∀ lo ∈ so.lessons,
          lo.levels = levelsOut ns po.title so.heading lo.name) ∧
        pagesMatch pjs pos = true := by
  intro pjs
  induction pjs with
  | nil =>
    intro reg pos reg' hp
    unfold processPages at hp
    simp only [Except.ok.injEq, Prod.mk.injEq] at hp
    obtain ⟨h1, h2⟩ := hp
    subst h1
    subst h2
    exact ⟨rfl, by simp, rfl⟩
  | cons pj rest ih =>
    intro reg pos reg' hp
    unfold processPages at hp
    split at hp
    · cases hp
    · next po1 reg1 hp1 =>
      split at hp
      · cases hp
      · next pos2 reg2 hp2 =>
        simp only [Except.ok.injEq, Prod.mk.injEq] at hp
        obtain ⟨h1, h2⟩ := hp
        subst h1
        subst h2
        obtain ⟨hr1, hsh1, hm1⟩ := processPage_spec hp1
        obtain ⟨hr2, hsh2, hm2⟩ := ih hp2
        refine ⟨?_, ?_, ?_⟩
        · rw [hr2, hr1]
          simp only [allPairs, List.flatMap_cons, dictFold_append]
        · intro po hpo
          rcases List.mem_cons.mp hpo with rfl | hpo2
          · exact hsh1
          · exact hsh2 po hpo2
        · simp only [pagesMatch, Bool.and_eq_true, hm1, hm2]
          exact ⟨trivial, trivial⟩

theorem build_spec {schema : Json} {nav : List NavItem} {pos : List PageOut}
    {reg : Reg} (hb : build schema = .ok (nav, pos, reg)) :
    ∃ seed psJ, seedOf schema = .ok seed ∧ pagesOf schema = .ok psJ ∧
      navItems psJ = .ok nav ∧
      reg = dictFold [] (allPairs pos) ∧
      (∀ po ∈ pos, ∀ so ∈ po.sections, ∀ lo ∈ so.lessons,
        lo.levels =
          levelsOut (uuid5 NAMESPACE_DNS seed) po.title so.heading lo.name) ∧
      pagesMatch psJ pos = true ∧
      processPages (uuid5 NAMESPACE_DNS seed) psJ [] = .ok (pos, reg) := by
  unfold build at hb
  split at hb
  · cases hb
  · next seed hseed =>
    split at hb
    · cases hb
    · next psJ hps =>
      split at hb
      · cases hb
      · next nav' hnav =>
        split at hb
        · cases hb
        · next pos' reg' hpp =>
          simp only [Except.ok.injEq, Prod.mk.injEq] at hb
          obtain ⟨h1, h2, h3⟩ := hb
          subst h1
          subst h2
          subst h3
          obtain ⟨hr, hsh, hm⟩ := processPages_spec hpp
          exact ⟨seed, psJ, hseed, hps, hnav, hr, hsh, hm, hpp⟩

/-! ### Keys, lengths and counts of the generated pairs -/

theorem mem_levelsOut {ns : List Nat} {t hdg n : String} {lv : Level}
    (h : lv ∈ levelsOut ns t hdg n) :
    lv.uid = levelUid ns t hdg n lv.num := by
  simp only [levelsOut, List.mem_cons, List.mem_singleton, List.not_mem_nil,
    or_false] at h
  rcases h with rfl | rfl | rfl
  · rfl
  · rfl
  · rfl

theorem lessonPairs_fst {ns : List Nat} (t hdg : String) (lo : LessonOut)
    (hsh : lo.levels = levelsOut ns t hdg lo.name) :
    (lessonPairs t hdg lo).map Prod.fst =
      (lessonKeys t hdg lo.name).map (fun k => uuidToString (uuid5 ns k)) := by
  unfold lessonPairs
  rw [hsh]
  rfl

theorem lessonPairs_flat_fst {ns : List Nat} (t hdg : String) :
    ∀ los : List LessonOut,
      (∀ lo ∈ los, lo.levels = levelsOut ns t hdg lo.name) →
      (los.flatMap (lessonPairs t hdg)).map Prod.fst =
        (los.flatMap fun lo => lessonKeys t hdg lo.name).map
          (fun k => uuidToString (uuid5 ns k))
  | [], _ => rfl
  | lo :: rest, hsh => by
    simp only [List.flatMap_cons, List.map_append]
    rw [lessonPairs_fst t hdg lo (hsh lo (by simp)),
      lessonPairs_flat_fst t hdg rest
        (fun lo2 h2 => hsh lo2 (List.mem_cons_of_mem _ h2))]

theorem sectionPairs_fst {ns : List Nat} (t : String) (so : SectionOut)
    (hsh : ∀ lo ∈ so.lessons, lo.levels = levelsOut ns t so.heading lo.name) :
    (sectionPairs t so).map Prod.fst =
      (sectionKeys t so).map (fun k => uuidToString (uuid5 ns k)) :=
  lessonPairs_flat_fst t so.heading so.lessons hsh

theorem sectionPairs_flat_fst {ns : List Nat} (t : String) :
    ∀ sos : List SectionOut,
      (∀ so ∈ sos, ∀ lo ∈ so.lessons,
        lo.levels = levelsOut ns t so.heading lo.name) →
      (sos.flatMap (sectionPairs t)).map Prod.fst =
        (sos.flatMap (sectionKeys t)).map (fun k => uuidToString (uuid5 ns k))
  | [], _ => rfl
  | so :: rest, hsh => by
    simp only [List.flatMap_cons, List.map_append]
    rw [sectionPairs_fst t so (hsh so (by simp)),
      sectionPairs_flat_fst t rest
        (fun so2 h2 => hsh so2 (List.mem_cons_of_mem _ h2))]

theorem pagePairs_fst {ns : List Nat} (po : PageOut)
    (hsh : ∀ so ∈ po.sections, ∀ lo ∈ so.lessons,
      lo.levels = levelsOut ns po.title so.heading lo.name) :
    (pagePairs po).map Prod.fst =
      (pageKeys po).map (fun k => uuidToString (uuid5 ns k)) :=
  sectionPairs_flat_fst po.title po.sections hsh

theorem allPairs_fst {ns : List Nat} :
    ∀ (pos : List PageOut),
      (∀ po ∈ pos, ∀ so ∈ po.sections, ∀ lo ∈ so.lessons,
        lo.levels = levelsOut ns po.title so.heading lo.name) →
      (allPairs pos).map Prod.fst =
        (allKeys pos).map (fun k => uuidToString (uuid5 ns k))
  | [], _ => rfl
  | po :: rest, hsh => by
    unfold allPairs allKeys
    simp only [List.flatMap_cons, List.map_append]
    rw [pagePairs_fst po (hsh po (by simp))]
    have hrec := allPairs_fst rest
      (fun po2 h2 => hsh po2 (List.mem_cons_of_mem _ h2))
    unfold allPairs allKeys at hrec
    rw [hrec]

theorem lessonKeys_flat_length (t hdg : String) :
    ∀ los : List LessonOut,
      (los.flatMap fun lo => lessonKeys t hdg lo.name).length = 3 * los.length
  | [] => rfl
  | lo :: rest => by
    simp only [List.flatMap_cons, List.length_append, List.length_cons]
    rw [lessonKeys_flat_length t hdg rest]
    simp [lessonKeys]
    omega

theorem sectionKeys_flat_length (t : String) :
    ∀ sos : List SectionOut,
      (sos.flatMap (sectionKeys t)).length =
        3 * (sos.map fun so => so.lessons.length).sum
  | [] => rfl
  | so :: rest => by
    simp only [List.flatMap_cons, List.length_append, List.map_cons,
      List.sum_cons]
    rw [sectionKeys_flat_length t rest]
    have h1 : (sectionKeys t so).length = 3 * so.lessons.length :=
      lessonKeys_flat_length t so.heading so.lessons
    omega

theorem allKeys_length :
    ∀ pos : List PageOut, (allKeys pos).length = 3 * lessonCountOut pos
  | [] => rfl
  | po :: rest => by
    unfold allKeys lessonCountOut
    simp only [List.flatMap_cons, List.length_append, List.map_cons,
      List.sum_cons]
    have h1 := allKeys_length rest
    have h2 : (pageKeys po).length =
        3 * (po.sections.map fun so => so.lessons.length).sum :=
      sectionKeys_flat_length po.title po.sections
    unfold allKeys lessonCountOut at h1
    omega

/-! ### Input/output correspondence of the length counts -/

theorem lessonsMatch_length :
    ∀ (ljs : List Json) (los : List LessonOut),
      lessonsMatch ljs los = true → ljs.length = los.length
  | [], [], _ => rfl
  | [], _ :: _, h => nomatch h
  | _ :: _, [], h => nomatch h
  | lj :: ljs, lo :: los, h => by
    simp only [lessonsMatch, Bool.and_eq_true] at h
    simpa using lessonsMatch_length ljs los h.2

theorem sectionMatches_count {sj : Json} {so : SectionOut}
    (h : sectionMatches sj so = true) :
    (jArrD sj "lessons").length = so.lessons.length := by
  unfold sectionMatches at h
  split at h
  · next hh hl =>
    simp only [Bool.and_eq_true] at h
    unfold jArrD
    rw [hl]
    exact lessonsMatch_length _ _ h.2
  · cases h

theorem sectionsMatch_count :
    ∀ (sjs : List Json) (sos : List SectionOut),
      sectionsMatch sjs sos = true →
      (sjs.map fun sj => (jArrD sj "lessons").length).sum =
        (sos.map fun so => so.lessons.length).sum
  | [], [], _ => rfl
  | [], _ :: _, h => nomatch h
  | _ :: _, [], h => nomatch h
  | sj :: sjs, so :: sos, h => by
    simp only [sectionsMatch, Bool.and_eq_true] at h
    simp only [List.map_cons, List.sum_cons]
    rw [sectionMatches_count h.1, sectionsMatch_count sjs sos h.2]

theorem pageMatches_count {pj : Json} {po : PageOut}
    (h : pageMatches pj po = true) :
    ((jArrD pj "sections").map fun sj => (jArrD sj "lessons").length).sum =
      (po.sections.map fun so => so.lessons.length).sum := by
  unfold pageMatches at h
  split at h
  · next ht hs =>
    simp only [Bool.and_eq_true] at h
    unfold jArrD
    rw [hs]
    exact sectionsMatch_count _ _ h.2
  · cases h

theorem pagesMatch_count :
    ∀ (pjs : List Json) (pos : List PageOut),
      pagesMatch pjs pos = true → inputLessonCount pjs = lessonCountOut pos
  | [], [], _ => rfl
  | [], _ :: _, h => nomatch h
  | _ :: _, [], h => nomatch h
  | pj :: pjs, po :: pos, h => by
    simp only [pagesMatch, Bool.and_eq_true] at h
    unfold inputLessonCount lessonCountOut
    simp only [List.map_cons, List.sum_cons]
    have h1 := pageMatches_count h.1
    have h2 := pagesMatch_count pjs pos h.2
    unfold inputLessonCount lessonCountOut at h2
    omega

/-! ### Error propagation: structural failures abort the build -/

theorem pagesOf_error_of_none {schema : Json}
    (h : jLookup schema "pages" = none) : ∃ e, pagesOf schema = .error e := by
  cases schema
  case obj kvs =>
    have h' : lookupField kvs "pages" = none := h
    exact ⟨"KeyError: pages", by simp only [pagesOf]; rw [h']⟩
  all_goals exact ⟨"TypeError: schema is not an object", rfl⟩

theorem jGetArr_error_of_none {j : Json} {k : String}
    (h : jLookup j k = none) : jGetArr j k = .error ("KeyError: " ++ k) := by
  unfold jGetArr
  rw [h]

theorem processPage_not_ok_of_no_sections {ns : List Nat} {pj : Json}
    (h : jLookup pj "sections" = none) (r : Reg) (o : PageOut × Reg) :
    processPage ns pj r ≠ .ok o := by
  intro hc
  unfold processPage at hc
  split at hc
  · cases hc
  · next t ht =>
    rw [jGetArr_error_of_none h] at hc
    cases hc

theorem processSection_not_ok_of_no_lessons {ns : List Nat} {t : String}
    {sj : Json} (h : jLookup sj "lessons" = none) (r : Reg)
    (o : SectionOut × Reg) : processSection ns t sj r ≠ .ok o := by
  intro hc
  unfold processSection at hc
  split at hc
  · cases hc
  · next hdg hh =>
    rw [jGetArr_error_of_none h] at hc
    cases hc

theorem processPages_ok_mem {ns : List Nat} :
    ∀ {pjs : List Json} {reg : Reg} {out : List PageOut × Reg},
      processPages ns pjs reg = .ok out → ∀ pj ∈ pjs,
        ∃ (r : Reg) (o : PageOut × Reg), processPage ns pj r = .ok o := by
  intro pjs
  induction pjs with
  | nil =>
    intro reg out _ pj hm
    cases hm
  | cons pj0 rest ih =>
    intro reg out hp pj hm
    unfold processPages at hp
    split at hp
    · cases hp
    · next po1 reg1 hp1 =>
      split at hp
      · cases hp
      · next pos2 reg2 hp2 =>
        rcases List.mem_cons.mp hm with rfl | hm2
        · exact ⟨reg, (po1, reg1), hp1⟩
        · exact ih hp2 pj hm2

theorem processSections_ok_mem {ns : List Nat} {t : String} :
    ∀ {sjs : List Json} {reg : Reg} {out : List SectionOut × Reg},
      processSections ns t sjs reg = .ok out → ∀ sj ∈ sjs,
        ∃ (r : Reg) (o : SectionOut × Reg), processSection ns t sj r = .ok o := by
  intro sjs
  induction sjs with
  | nil =>
    intro reg out _ sj hm
    cases hm
  | cons sj0 rest ih =>
    intro reg out hp sj hm
    unfold processSections at hp
    split at hp
    · cases hp
    · next so1 reg1 hp1 =>
      split at hp
      · cases hp
      · next sos2 reg2 hp2 =>
        rcases List.mem_cons.mp hm with rfl | hm2
        · exact ⟨reg, (so1, reg1), hp1⟩
        · exact ih hp2 sj hm2

theorem processPage_ok_sections {ns : List Nat} {pj : Json} {r : Reg}
    {o : PageOut × Reg} (hp : processPage ns pj r = .ok o) :
    ∃ t ss out, jGetArr pj "sections" = .ok ss ∧
      processSections ns t ss r = .ok out := by
  unfold processPage at hp
  split at hp
  · cases hp
  · next t ht =>
    split at hp
    · cases hp
    · next ss hs =>
      split at hp
      · cases hp
      · next sos reg2 hps => exact ⟨t, ss, (sos, reg2), hs, hps⟩

/-! ### Success under structural well-formedness -/

theorem processLesson_ok_of_wf {ns : List Nat} {t hdg : String} {lj : Json}
    (h : lessonWF lj = true) (reg : Reg) :
    ∃ out, processLesson ns t hdg lj reg = .ok out := by
  unfold lessonWF at h
  split at h
  · next name heq => exact ⟨_, by unfold processLesson; rw [heq]⟩
  · cases h

theorem processLessons_ok_of_wf {ns : List Nat} {t hdg : String} :
    ∀ {ljs : List Json}, ljs.all lessonWF = true → ∀ reg : Reg,
      ∃ out, processLessons ns t hdg ljs reg = .ok out := by
  intro ljs
  induction ljs with
  | nil => exact fun _ reg => ⟨([], reg), rfl⟩
  | cons lj rest ih =>
    intro h reg
    simp only [List.all_cons, Bool.and_eq_true] at h
    obtain ⟨⟨lo, reg1⟩, h1⟩ := @processLesson_ok_of_wf ns t hdg lj h.1 reg
    obtain ⟨⟨los, reg2⟩, h2⟩ := ih h.2 reg1
    exact ⟨(lo :: los, reg2), by unfold processLessons; simp only [h1, h2]⟩

theorem processSection_ok_of_wf {ns : List Nat} {t : String} {sj : Json}
    (h : sectionWF sj = true) (reg : Reg) :
    ∃ out, processSection ns t sj reg = .ok out := by
  unfold sectionWF at h
  split at h
  · next hdg ljs hh hl =>
    obtain ⟨⟨los, reg2⟩, h2⟩ := @processLessons_ok_of_wf ns t hdg ljs h reg
    exact ⟨(⟨hdg, los⟩, reg2), by unfold processSection; simp only [hh, hl, h2]⟩
  · cases h

theorem processSections_ok_of_wf {ns : List Nat} {t : String} :
    ∀ {sjs : List Json}, sjs.all sectionWF = true → ∀ reg : Reg,
      ∃ out, processSections ns t sjs reg = .ok out := by
  intro sjs
  induction sjs with
  | nil => exact fun _ reg => ⟨([], reg), rfl⟩
  | cons sj rest ih =>
    intro h reg
    simp only [List.all_cons, Bool.and_eq_true] at h
    obtain ⟨⟨so, reg1⟩, h1⟩ := @processSection_ok_of_wf ns t sj h.1 reg
    obtain ⟨⟨sos, reg2⟩, h2⟩ := ih h.2 reg1
    exact ⟨(so :: sos, reg2), by unfold processSections; simp only [h1, h2]⟩

theorem processPage_ok_of_wf {ns : List Nat} {pj : Json}
    (h : pageWF pj = true) (reg : Reg) :
    ∃ out, processPage ns pj reg = .ok out := by
  unfold pageWF at h
  split at h
  · next t ss ht hs =>
    obtain ⟨⟨sos, reg2⟩, h2⟩ := @processSections_ok_of_wf ns t ss h reg
    exact ⟨(⟨t, sos⟩, reg2), by unfold processPage; simp only [ht, hs, h2]⟩
  · cases h

theorem processPages_ok_of_wf {ns : List Nat} :
    ∀ {pjs : List Json}, pjs.all pageWF = true → ∀ reg : Reg,
      ∃ out, processPages ns pjs reg = .ok out := by
  intro pjs
  induction pjs with
  | nil => exact fun _ reg => ⟨([], reg), rfl⟩
  | cons pj rest ih =>
    intro h reg
    simp only [List.all_cons, Bool.and_eq_true] at h
    obtain ⟨⟨po, reg1⟩, h1⟩ := @processPage_ok_of_wf ns pj h.1 reg
    obtain ⟨⟨pos, reg2⟩, h2⟩ := ih h.2 reg1
    exact ⟨(po :: pos, reg2), by unfold processPages; simp only [h1, h2]⟩

theorem navItems_ok_of_wf :
    ∀ {pjs : List Json}, pjs.all pageWF = true →
      ∃ nav, navItems pjs = .ok nav := by
  intro pjs
  induction pjs with
  | nil => exact fun _ => ⟨[], rfl⟩
  | cons pj rest ih =>
    intro h
    simp only [List.all_cons, Bool.and_eq_true] at h
    have h1 := h.1
    unfold pageWF at h1
    split at h1
    · next t ss ht hs =>
      obtain ⟨nav2, h2⟩ := ih h.2
      exact ⟨⟨t, t ++ ".html"⟩ :: nav2, by unfold navItems; simp only [ht, h2]⟩
    · cases h1

theorem build_ok_of_wf {schema : Json} (h : schemaWF schema = true) :
    ∃ out, build schema = .ok out := by
  unfold schemaWF at h
  split at h
  · next seed psJ hseed hps =>
    obtain ⟨nav, hnav⟩ := navItems_ok_of_wf h
    obtain ⟨⟨pos, reg⟩, hpp⟩ :=
      @processPages_ok_of_wf (uuid5 NAMESPACE_DNS seed) psJ h []
    exact ⟨(nav, pos, reg), by unfold build; simp only [hseed, hps, hnav, hpp]⟩
  · cases h

/-! ### Empty collections generate no registry pairs -/

theorem sectionPairs_flat_nil (t : String) :
    ∀ sos : List SectionOut,
      (sos.map fun so => so.lessons.length).sum = 0 →
      sos.flatMap (sectionPairs t) = []
  | [], _ => rfl
  | so :: rest, h => by
    simp only [List.map_cons, List.sum_cons] at h
    have h1 : so.lessons.length = 0 := by omega
    have h2 : (rest.map fun so => so.lessons.length).sum = 0 := by omega
    have hl : so.lessons = [] := List.length_eq_zero.mp h1
    simp only [List.flatMap_cons, sectionPairs, hl, List.flatMap_nil,
      List.nil_append]
    exact sectionPairs_flat_nil t rest h2

theorem allPairs_nil_of_count_zero :
    ∀ pos : List PageOut, lessonCountOut pos = 0 → allPairs pos = []
  | [], _ => rfl
  | po :: rest, h => by
    unfold lessonCountOut at h
    simp only [List.map_cons, List.sum_cons] at h
    have h1 : (po.sections.map fun so => so.lessons.length).sum = 0 := by omega
    have h2 : (rest.map fun p =>
        (p.sections.map fun so => so.lessons.length).sum).sum = 0 := by omega
    unfold allPairs
    simp only [List.flatMap_cons]
    rw [show pagePairs po = [] from
      sectionPairs_flat_nil po.title po.sections h1]
    have h3 := allPairs_nil_of_count_zero rest (by
      unfold lessonCountOut
      exact h2)
    unfold allPairs at h3
    rw [h3]
    rfl

/-! ### Evaluation of the example schemas, and congruence of `build` -/

set_option maxRecDepth 400000 in
theorem exSchema_build : build exSchema = .ok (exNav, exPages, exReg) := by
  rfl

set_option maxRecDepth 400000 in
theorem colSchema_build : build colSchema = .ok (colNav, colPages, colReg) := by
  rfl

theorem build_congr {s1 s2 : Json} (h1 : seedOf s1 = seedOf s2)
    (h2 : pagesOf s1 = pagesOf s2) : build s1 = build s2 := by
  unfold build
  rw [h1, h2]

theorem seedOf_config_cons (ckvs kvs : List (String × Json)) :
    seedOf (.obj (("config", .obj ckvs) :: kvs)) =
      seedFromEntry (lookupField ckvs "uuid_seed") := rfl

theorem pagesOf_config_cons (c : Json) (kvs : List (String × Json)) :
    pagesOf (.obj (("config", c) :: kvs)) = pagesOf (.obj kvs) := rfl

theorem seedOf_default {kvs : List (String × Json)}
    (h : lookupField kvs "config" = none ∨
      ∃ ckvs, lookupField kvs "config" = some (.obj ckvs) ∧
        lookupField ckvs "uuid_seed" = none) :
    seedOf (.obj kvs) = .ok "default_seed" := by
  rcases h with h | ⟨ckvs, h1, h2⟩
  · simp only [seedOf]
    rw [h]
    rfl
  · simp only [seedOf]
    rw [h1]
    show seedFromEntry (lookupField ckvs "uuid_seed") = .ok "default_seed"
    rw [h2]
    rfl

/-! ### The claims -/

/-- C6: the builder is deterministic: the embedding of the identifier
derivation and registry construction is a pure function of the schema (seed
included), so two runs on an identical schema produce identical nav items,
identical processed pages (identifiers and level annotations) and an
identical registry. -/
theorem c6_deterministic (schema : Json) : build schema = build schema := rfl

/-- C7: a schema whose `config` is absent, or whose `config` mapping lacks
`uuid_seed`, builds without error handling differences: it is
indistinguishable from the same schema with `config.uuid_seed` explicitly
set to `"default_seed"` — identical identifiers and registry. -/
theorem c7_default_seed {kvs : List (String × Json)}
    (h : lookupField kvs "config" = none ∨
      ∃ ckvs, lookupField kvs "config" = some (.obj ckvs) ∧
        lookupField ckvs "uuid_seed" = none) :
    build (.obj kvs) =
      build (.obj (("config",
        .obj [("uuid_seed", .str "default_seed")]) :: kvs)) := by
  refine build_congr ?_ ?_
  · rw [seedOf_default h]
    rfl
  · exact (pagesOf_config_cons _ kvs).symm

/-- C9: noninterference of unrelated configuration: two `config` mappings
that agree on the value of `uuid_seed` (both may omit it) yield identical
builds — identical identifiers, level annotations and registry; no other
config key influences the derivation. -/
theorem c9_config_noninterference {kvs c1 c2 : List (String × Json)}
    (hagree : lookupField c1 "uuid_seed" = lookupField c2 "uuid_seed") :
    build (.obj (("config", .obj c1) :: kvs)) =
      build (.obj (("config", .obj c2) :: kvs)) := by
  refine build_congr ?_ ?_
  · rw [seedOf_config_cons, seedOf_config_cons, hagree]
  · rw [pagesOf_config_cons, pagesOf_config_cons]

/-- C6 witness at the §8 example schema. -/
theorem c6_witness : build exSchema = build exSchema := c6_deterministic exSchema

/-- C7 witness: a schema with no `config` at all builds identically to the
one with the explicit default seed. -/
theorem c7_witness :
    build (.obj [("pages", .arr [])]) =
      build (.obj [("config", .obj [("uuid_seed", .str "default_seed")]),
        ("pages", .arr [])]) :=
  c7_default_seed (Or.inl rfl)

/-- C9 witness: a config with only an unrelated `theme` key builds
identically to an empty config. -/
theorem c9_witness :
    build (.obj [("config", .obj [("theme", .str "dark")]),
        ("pages", .arr [])]) =
      build (.obj [("config", .obj []), ("pages", .arr [])]) :=
  c9_config_noninterference rfl

/-- C1: every identifier attached to a level by the build follows the
two-step derivation: the build namespace is the version-5 UUID of the seed
under the fixed DNS base namespace, and the level's identifier is the
version-5 UUID, under that namespace, of the composite key
`page_title|section_heading|lesson_name|level_number` with literal pipe
separators and no escaping of embedded pipes. -/
theorem c1_level_uid_scheme {schema : Json} {seed : String}
    {nav : List NavItem} {pos : List PageOut} {reg : Reg}
    (hs : seedOf schema = .ok seed)
    (hb : build schema = .ok (nav, pos, reg)) :
    ∀ po ∈ pos, ∀ so ∈ po.sections, ∀ lo ∈ so.lessons, ∀ lv ∈ lo.levels,
      lv.uid = uuidToString (uuid5 (uuid5 NAMESPACE_DNS seed)
        (po.title ++ "|" ++ so.heading ++ "|" ++ lo.name ++ "|"
          ++ toString lv.num)) := by
  obtain ⟨seed', psJ', hs', hps', hnav, hreg, hsh, hm, hpp⟩ := build_spec hb
  rw [hs] at hs'
  injection hs' with hseq
  subst hseq
  intro po hpo so hso lo hlo lv hlv
  rw [hsh po hpo so hso lo hlo] at hlv
  exact mem_levelsOut hlv

/-- C2: after processing, every lesson — whether it entered as a bare string
or as an object with a `name` field — has become `{name, levels}` with the
name taken from the string or the `name` field, and levels numbered exactly
`1, 2, 3` in ascending order; lesson lists keep their length and order, and
the string/object distinction is erased (the output type carries only the
name). -/
theorem c2_lessons_normalized {schema : Json} {psJ : List Json}
    {nav : List NavItem} {pos : List PageOut} {reg : Reg}
    (hps : pagesOf schema = .ok psJ)
    (hb : build schema = .ok (nav, pos, reg)) :
    pagesMatch psJ pos = true := by
  obtain ⟨seed', psJ', hs', hps', hnav, hreg, hsh, hm, hpp⟩ := build_spec hb
  rw [hps] at hps'
  injection hps' with hpeq
  subst hpeq
  exact hm

/-- C3: when all composite keys are pairwise distinct and the identifier
derivation is injective on them, the registry has exactly
`3 * (total lesson count)` entries. -/
theorem c3_cardinality {schema : Json} {seed : String} {psJ : List Json}
    {nav : List NavItem} {pos : List PageOut} {reg : Reg}
    (hs : seedOf schema = .ok seed)
    (hps : pagesOf schema = .ok psJ)
    (hb : build schema = .ok (nav, pos, reg))
    (hkeys : (allKeys pos).Nodup)
    (hinj : ∀ k1 ∈ allKeys pos, ∀ k2 ∈ allKeys pos,
      uuidToString (uuid5 (uuid5 NAMESPACE_DNS seed) k1) =
        uuidToString (uuid5 (uuid5 NAMESPACE_DNS seed) k2) → k1 = k2) :
    reg.length = 3 * inputLessonCount psJ := by
  obtain ⟨seed', psJ', hs', hps', hnav, hreg, hsh, hm, hpp⟩ := build_spec hb
  rw [hs] at hs'
  injection hs' with hseq
  subst hseq
  rw [hps] at hps'
  injection hps' with hpeq
  subst hpeq
  have hfst := allPairs_fst pos hsh
  have hnodup : ((allPairs pos).map Prod.fst).Nodup := by
    rw [hfst]
    exact List.Nodup.map_on hinj hkeys
  have hfresh : ∀ k ∈ (allPairs pos).map Prod.fst,
      hasKey ([] : Reg) k = false := fun _ _ => rfl
  rw [hreg, dictFold_of_fresh [] hfresh hnodup, List.nil_append]
  have hlen : (allPairs pos).length = (allKeys pos).length := by
    have h1 := congrArg List.length hfst
    simpa using h1
  rw [hlen, allKeys_length pos, ← pagesMatch_count psJ pos hm]

/-- C4: round-trip: every registry entry maps an identifier to the tuple
`[page, heading, lesson, level]` from which rebuilding the composite key and
re-deriving under the build's namespace reproduces exactly that identifier. -/
theorem c4_round_trip {schema : Json} {seed : String}
    {nav : List NavItem} {pos : List PageOut} {reg : Reg}
    (hs : seedOf schema = .ok seed)
    (hb : build schema = .ok (nav, pos, reg)) :
    ∀ p ∈ reg, p.1 = uuidToString (uuid5 (uuid5 NAMESPACE_DNS seed)
      (p.2.page ++ "|" ++ p.2.heading ++ "|" ++ p.2.lesson ++ "|"
        ++ toString p.2.level)) := by
  obtain ⟨seed', psJ', hs', hps', hnav, hreg, hsh, hm, hpp⟩ := build_spec hb
  rw [hs] at hs'
  injection hs' with hseq
  subst hseq
  intro p hp
  rw [hreg] at hp
  rcases mem_dictFold hp with h0 | h0
  · cases h0
  · unfold allPairs at h0
    rcases List.mem_flatMap.mp h0 with ⟨po, hpo, hp1⟩
    unfold pagePairs at hp1
    rcases List.mem_flatMap.mp hp1 with ⟨so, hso, hp2⟩
    unfold sectionPairs at hp2
    rcases List.mem_flatMap.mp hp2 with ⟨lo, hlo, hp3⟩
    unfold lessonPairs at hp3
    rcases List.mem_map.mp hp3 with ⟨lv, hlv, hpe⟩
    rw [hsh po hpo so hso lo hlo] at hlv
    have h2 := mem_levelsOut hlv
    subst hpe
    show lv.uid = _
    rw [h2]
    rfl

/-- C5: for every identifier that is generated at all (in particular when
two distinct lesson levels share a composite key and hence an identifier),
the registry holds exactly one entry for it, and the stored tuple is that of
the occurrence processed last in page/section/lesson order. -/
theorem c5_last_write_wins {schema : Json} {nav : List NavItem}
    {pos : List PageOut} {reg : Reg} {u : String}
    (hb : build schema = .ok (nav, pos, reg))
    (hu : u ∈ (allPairs pos).map Prod.fst) :
    reg.countP (fun p => p.1 == u) = 1 ∧
      regGet reg u = regGet (allPairs pos).reverse u := by
  obtain ⟨seed', psJ', hs', hps', hnav, hreg, hsh, hm, hpp⟩ := build_spec hb
  subst hreg
  constructor
  · refine countP_eq_one_of_nodup (nodup_dictFold _ (by simp)) ?_
    exact hasKey_iff.mp (hasKey_dictFold_of_mem hu)
  · have hu2 : u ∈ (allPairs pos).reverse.map Prod.fst := by
      simpa [List.map_reverse, List.mem_reverse] using hu
    rcases regGet_isSome_of_mem hu2 with ⟨v, hv⟩
    rw [regGet_dictFold, hv]
    rfl

/-- C8: a schema without `pages`, a page without `sections`, or a section
without `lessons` makes the build raise a fatal error: it returns no
registry and no processed pages (the file writes in the script happen only
after this core succeeds, so nothing is written). -/
theorem c8_structural_error {schema : Json}
    (hbad : jLookup schema "pages" = none
      ∨ (∃ psJ pj, pagesOf schema = .ok psJ ∧ pj ∈ psJ ∧
          jLookup pj "sections" = none)
      ∨ (∃ psJ pj ss sj, pagesOf schema = .ok psJ ∧ pj ∈ psJ ∧
          jGetArr pj "sections" = .ok ss ∧ sj ∈ ss ∧
          jLookup sj "lessons" = none)) :
    ∃ e, build schema = .error e := by
  cases hB : build schema with
  | error e => exact ⟨e, rfl⟩
  | ok x =>
    exfalso
    obtain ⟨nav, pos, reg⟩ := x
    obtain ⟨seed, psJ', hs', hps', hnav, hreg, hsh, hm, hpp⟩ := build_spec hB
    rcases hbad with h | ⟨psJ, pj, hps, hpj, hsec⟩ |
      ⟨psJ, pj, ss, sj, hps, hpj, hss, hsj, hles⟩
    · rcases pagesOf_error_of_none h with ⟨e, he⟩
      rw [hps'] at he
      cases he
    · rw [hps] at hps'
      injection hps' with hpeq
      subst hpeq
      obtain ⟨r, o, hok⟩ := processPages_ok_mem hpp pj hpj
      exact processPage_not_ok_of_no_sections hsec r o hok
    · rw [hps] at hps'
      injection hps' with hpeq
      subst hpeq
      obtain ⟨r, o, hok⟩ := processPages_ok_mem hpp pj hpj
      obtain ⟨t, ss2, out2, hss2, hsecs⟩ := processPage_ok_sections hok
      rw [hss] at hss2
      injection hss2 with hsseq
      subst hsseq
      obtain ⟨r2, o2, hsok⟩ := processSections_ok_mem hsecs sj hsj
      exact processSection_not_ok_of_no_lessons hles r2 o2 hsok

/-- C10: empty collections are not errors: every structurally well-formed
schema builds successfully (empty `pages`, empty `sections` and empty
`lessons` lists included), and when it contains no lesson at all — in
particular when `pages` is `[]` — the resulting registry is empty. -/
theorem c10_empty_ok {schema : Json} (hwf : schemaWF schema = true) :
    (∃ out, build schema = .ok out) ∧
      (∀ psJ nav pos reg, pagesOf schema = .ok psJ →
        build schema = .ok (nav, pos, reg) → inputLessonCount psJ = 0 →
        reg = []) := by
  refine ⟨build_ok_of_wf hwf, ?_⟩
  intro psJ nav pos reg hps hb hcount
  obtain ⟨seed', psJ', hs', hps', hnav, hreg, hsh, hm, hpp⟩ := build_spec hb
  rw [hps] at hps'
  injection hps' with hpeq
  subst hpeq
  have hc : lessonCountOut pos = 0 := by
    rw [← pagesMatch_count psJ pos hm]
    exact hcount
  rw [hreg, allPairs_nil_of_count_zero pos hc]
  rfl

/-! ### Witnesses at concrete schemas -/

set_option maxRecDepth 400000 in
/-- C1 witness: level 1 of the §8 example carries exactly the derived
identifier. -/
theorem c1_witness :
    exUid1 = uuidToString (uuid5 (uuid5 NAMESPACE_DNS "test")
      ("Sounds" ++ "|" ++ "Vowels" ++ "|" ++ "Short A" ++ "|"
        ++ toString (1 : Nat))) :=
  c1_level_uid_scheme (show seedOf exSchema = Except.ok "test" from rfl)
    exSchema_build
    ⟨"Sounds", [⟨"Vowels",
      [⟨"Short A", [⟨1, exUid1⟩, ⟨2, exUid2⟩, ⟨3, exUid3⟩]⟩]⟩]⟩ (by decide)
    ⟨"Vowels", [⟨"Short A", [⟨1, exUid1⟩, ⟨2, exUid2⟩, ⟨3, exUid3⟩]⟩]⟩
    (by decide)
    ⟨"Short A", [⟨1, exUid1⟩, ⟨2, exUid2⟩, ⟨3, exUid3⟩]⟩ (by decide)
    ⟨1, exUid1⟩ (by decide)

/-- C2 witness: the §8 example's input pages match its processed pages. -/
theorem c2_witness : pagesMatch exPagesJ exPages = true :=
  c2_lessons_normalized
    (show pagesOf exSchema = Except.ok exPagesJ from rfl) exSchema_build

set_option maxRecDepth 400000 in
/-- C3 witness: the §8 example has 1 lesson and 3 registry entries. -/
theorem c3_witness : exReg.length = 3 * inputLessonCount exPagesJ :=
  c3_cardinality (show seedOf exSchema = Except.ok "test" from rfl)
    (show pagesOf exSchema = Except.ok exPagesJ from rfl)
    exSchema_build (by decide) (by decide)

/-- C4 witness: the entry of level 2 of the §8 example round-trips. -/
theorem c4_witness :
    (exUid2, (⟨"Sounds", "Vowels", "Short A", 2⟩ : RegEntry)).1 =
      uuidToString (uuid5 (uuid5 NAMESPACE_DNS "test")
        ("Sounds" ++ "|" ++ "Vowels" ++ "|" ++ "Short A" ++ "|"
          ++ toString (2 : Nat))) :=
  c4_round_trip (show seedOf exSchema = Except.ok "test" from rfl)
    exSchema_build
    (exUid2, ⟨"Sounds", "Vowels", "Short A", 2⟩) (by decide)

/-- C5 witness: in the pipe-collision schema the shared identifier has
exactly one registry entry, equal to the last processed occurrence
(page `A`, heading `B|C`). -/
theorem c5_witness :
    (colReg.countP (fun p => p.1 == colUid1) = 1 ∧
      regGet colReg colUid1 = regGet (allPairs colPages).reverse colUid1) ∧
      regGet colReg colUid1 = some ⟨"A", "B|C", "L", 1⟩ :=
  ⟨c5_last_write_wins colSchema_build (by decide), rfl⟩

/-- C8 witness: a schema with no `pages` key does not build. -/
theorem c8_witness : (build noPagesSchema).isOk = false := by
  obtain ⟨e, he⟩ := @c8_structural_error noPagesSchema (Or.inl rfl)
  rw [he]
  rfl

/-- C10 witness: a well-formed schema whose only section has an empty
lesson list builds successfully. -/
theorem c10_witness : (build emptyLessonsSchema).isOk = true := by
  obtain ⟨⟨out, h⟩, _⟩ := @c10_empty_ok emptyLessonsSchema rfl
  rw [h]
  rfl

end GeoDrills
